import Mathlib

/-!
Shallow embedding of the Grishinium blockchain core (the Proof-of-Stake
variant with the native token ledger): `crypto_token.py`, `pos_consensus.py`,
`blockchain.py` and `storage.py`.

Modelling conventions, stated once:

* Python `dict`s preserve insertion order; they are modelled as association
  lists with `alSet` replacing an existing key in place and appending a
  fresh key at the end, exactly Python assignment semantics.
* Python `int` is modelled as `Int`.  Timestamps are produced by
  `time.time()` (a nondeterministic float); they are modelled as explicit
  `Int` parameters threaded to every operation that reads the clock.
* Stake amounts are Python floats in `pos_consensus.py`; every amount the
  repository ever stakes is a whole number far below 2^53, where float
  arithmetic on sums and comparisons is exact, so they are modelled as `Nat`.
* Fallible code (a Python `raise`, a `KeyError` on a missing dict key) is
  modelled with `Option`; genuinely nondeterministic code (`random.choice`,
  iteration over an unordered `set`) is modelled by a dedicated outcome
  constructor rather than by picking a value.
-/

/-! ## Association lists: the embedding of Python dicts -/

/-- Python `d.get(k, default)` on an insertion-ordered dict. -/
def alGet {α : Type} (m : List (String × α)) (k : String) (d : α) : α :=
  match m.find? (fun p => p.1 == k) with
  | some p => p.2
  | none => d

/-- Python `k in d`. -/
def alHas {α : Type} (m : List (String × α)) (k : String) : Bool :=
  m.any (fun p => p.1 == k)

/-- Python `d[k] = v`: replace in place when the key exists, else append. -/
def alSet {α : Type} (m : List (String × α)) (k : String) (v : α) :
    List (String × α) :=
  if m.any (fun p => p.1 == k) then
    m.map (fun p => if p.1 == k then (k, v) else p)
  else m ++ [(k, v)]

/-- Python `del d[k]`. -/
def alDel {α : Type} (m : List (String × α)) (k : String) :
    List (String × α) :=
  m.filter (fun p => !(p.1 == k))

/-- Sum of the values of an association list (`sum(d.values())`). -/
def alSumInt (m : List (String × Int)) : Int :=
  (m.map Prod.snd).sum

/-- Sum of the values of a `Nat`-valued association list. -/
def alSumNat (m : List (String × Nat)) : Nat :=
  (m.map Prod.snd).sum

/-! ## Token transactions (`crypto_token.py`) -/

/-- `TokenTransactionType` enum from `crypto_token.py`. -/
inductive TokenTransactionType where
  | TRANSFER
  | STAKE
  | UNSTAKE
  | REWARD
  | GENESIS
  | FEE
  deriving DecidableEq, Repr

/-- The `.value` string of each enum member. -/
def TokenTransactionType.value : TokenTransactionType → String
  | .TRANSFER => "transfer"
  | .STAKE => "stake"
  | .UNSTAKE => "unstake"
  | .REWARD => "reward"
  | .GENESIS => "genesis"
  | .FEE => "fee"

/-- `TokenTransactionType(s)`: enum lookup by value, `none` on `ValueError`. -/
def TokenTransactionType.ofValue (s : String) : Option TokenTransactionType :=
  if s == "transfer" then some .TRANSFER
  else if s == "stake" then some .STAKE
  else if s == "unstake" then some .UNSTAKE
  else if s == "reward" then some .REWARD
  else if s == "genesis" then some .GENESIS
  else if s == "fee" then some .FEE
  else none

/-- `TokenTransaction` from `crypto_token.py`. -/
structure TokenTransaction where
  tx_type : TokenTransactionType
  sender : String
  recipient : String
  amount : Int
  fee : Int
  timestamp : Int
  signature : Option String
  tx_id : String
  deriving DecidableEq, Repr

/-! ## Token ledger (`crypto_token.py`) -/

/-- Token constants from `crypto_token.py` (amounts in minimal units). -/
def TOKEN_DECIMALS : Nat := 8

def TOKEN_INITIAL_SUPPLY : Int := 100000000 * (10 ^ TOKEN_DECIMALS : Nat)

def TOKEN_MAX_SUPPLY : Int := 1000000000 * (10 ^ TOKEN_DECIMALS : Nat)

def BLOCK_REWARD_START : Int := 50 * (10 ^ TOKEN_DECIMALS : Nat)

def BLOCK_REWARD_HALVING_BLOCKS : Nat := 210000

/-- `TokenLedger` state from `crypto_token.py`. -/
structure TokenLedger where
  balances : List (String × Int)
  staked_amounts : List (String × Int)
  transaction_history : List (String × List String)
  total_supply : Int
  deriving DecidableEq, Repr

/-- `TokenLedger.__init__`. -/
def emptyLedger : TokenLedger :=
  { balances := [], staked_amounts := [], transaction_history := [],
    total_supply := 0 }

/-- The history bookkeeping at the end of `apply_transaction`: append the
tx id to the sender and recipient histories unless they are `system`. -/
def updateHistory (l : TokenLedger) (tx : TokenTransaction) : TokenLedger :=
  let l :=
    if tx.sender != "system" then
      let h := alGet l.transaction_history tx.sender [] ++ [tx.tx_id]
      { l with transaction_history := alSet l.transaction_history tx.sender h }
    else l
  if tx.recipient != "system" then
    let h := alGet l.transaction_history tx.recipient [] ++ [tx.tx_id]
    { l with transaction_history := alSet l.transaction_history tx.recipient h }
  else l

/-- `TokenLedger.apply_transaction`, branch for branch.  Returns the Python
boolean result paired with the (possibly unchanged) ledger. -/
def apply_transaction (l : TokenLedger) (tx : TokenTransaction) :
    Bool × TokenLedger :=
  match tx.tx_type with
  | .GENESIS =>
      let balances := alSet l.balances tx.recipient
        (alGet l.balances tx.recipient 0 + tx.amount)
      let supply := l.total_supply + tx.amount
      (true, updateHistory { l with balances := balances, total_supply := supply } tx)
  | .TRANSFER =>
      let sender_balance := alGet l.balances tx.sender 0
      if sender_balance < tx.amount + tx.fee then (false, l)
      else
        let balances := alSet l.balances tx.sender
          (sender_balance - tx.amount - tx.fee)
        let balances := alSet balances tx.recipient
          (alGet balances tx.recipient 0 + tx.amount)
        (true, updateHistory { l with balances := balances } tx)
  | .STAKE =>
      let sender_balance := alGet l.balances tx.sender 0
      if sender_balance < tx.amount + tx.fee then (false, l)
      else
        let balances := alSet l.balances tx.sender
          (sender_balance - tx.amount - tx.fee)
        let staked := alSet l.staked_amounts tx.sender
          (alGet l.staked_amounts tx.sender 0 + tx.amount)
        (true, updateHistory
          { l with balances := balances, staked_amounts := staked } tx)
  | .UNSTAKE =>
      let staked_amount := alGet l.staked_amounts tx.sender 0
      let sender_balance := alGet l.balances tx.sender 0
      if sender_balance < tx.fee || staked_amount < tx.amount then (false, l)
      else
        let balances := alSet l.balances tx.sender
          (sender_balance - tx.fee + tx.amount)
        let staked := alSet l.staked_amounts tx.sender (staked_amount - tx.amount)
        (true, updateHistory
          { l with balances := balances, staked_amounts := staked } tx)
  | .REWARD =>
      let balances := alSet l.balances tx.recipient
        (alGet l.balances tx.recipient 0 + tx.amount)
      let supply := l.total_supply + tx.amount
      (true, updateHistory { l with balances := balances, total_supply := supply } tx)
  | .FEE =>
      let balances := alSet l.balances tx.recipient
        (alGet l.balances tx.recipient 0 + tx.amount)
      (true, updateHistory { l with balances := balances } tx)

/-- `TokenLedger.get_balance`. -/
def get_balance (l : TokenLedger) (address : String) : Int :=
  alGet l.balances address 0

/-- `TokenLedger.get_staked_amount`. -/
def get_staked_amount (l : TokenLedger) (address : String) : Int :=
  alGet l.staked_amounts address 0

/-- `TokenLedger.calculate_block_reward`. -/
def calculate_block_reward (l : TokenLedger) (block_height : Nat) : Int :=
  let halvings := block_height / BLOCK_REWARD_HALVING_BLOCKS
  if halvings ≥ 64 then 0
  else
    let reward := BLOCK_REWARD_START / ((2 : Int) ^ halvings)
    if l.total_supply + reward > TOKEN_MAX_SUPPLY then
      max 0 (TOKEN_MAX_SUPPLY - l.total_supply)
    else reward

/-! ## Ledger runs: folding transaction sequences from the empty ledger -/

/-- Apply a list of transactions in order, starting from the empty ledger
(failed applications leave the ledger unchanged, as in the source). -/
def runLedger (txs : List TokenTransaction) : TokenLedger :=
  txs.foldl (fun l tx => (apply_transaction l tx).2) emptyLedger

/-- `true` iff every `apply_transaction` in the run reported success. -/
def allApplySucceed (txs : List TokenTransaction) : Bool :=
  (txs.foldl
    (fun (p : Bool × TokenLedger) tx =>
      let r := apply_transaction p.2 tx
      (p.1 && r.1, r.2))
    (true, emptyLedger)).1

/-- One accounting step: the ledger together with the running total of fees
charged by successful TRANSFER/STAKE/UNSTAKE applications and of amounts
credited by successful FEE applications. -/
def accountingStep (s : TokenLedger × Int × Int) (tx : TokenTransaction) :
    TokenLedger × Int × Int :=
  let r := apply_transaction s.1 tx
  let charged :=
    if r.1 && (tx.tx_type == .TRANSFER || tx.tx_type == .STAKE
        || tx.tx_type == .UNSTAKE) then tx.fee else 0
  let distributed := if r.1 && tx.tx_type == .FEE then tx.amount else 0
  (r.2, s.2.1 + charged, s.2.2 + distributed)

/-- Run a transaction list from the empty ledger, also accumulating the fees
charged (burned at this layer) and the FEE amounts distributed. -/
def runAccounting (txs : List TokenTransaction) : TokenLedger × Int × Int :=
  txs.foldl accountingStep (emptyLedger, 0, 0)

/-! ## SHA-256 over byte lists (used by tx ids and block hashes)

Pure `Nat` implementation of FIPS 180-4; 32-bit words are `Nat`s kept below
2^32 by explicit reduction modulo 4294967296. -/

/-- Truncate to a 32-bit word. -/
def w32 (n : Nat) : Nat := n % 4294967296

/-- Right rotation of a 32-bit word. -/
def rotr32 (x n : Nat) : Nat := w32 ((x >>> n) ||| (x <<< (32 - n)))

/-- Bitwise complement within 32 bits (`x` is assumed below 2^32). -/
def not32 (x : Nat) : Nat := 4294967295 - x

def shaCh (x y z : Nat) : Nat := (x &&& y) ^^^ (not32 x &&& z)

def shaMaj (x y z : Nat) : Nat := (x &&& y) ^^^ (x &&& z) ^^^ (y &&& z)

def bigSigma0 (x : Nat) : Nat := rotr32 x 2 ^^^ rotr32 x 13 ^^^ rotr32 x 22

def bigSigma1 (x : Nat) : Nat := rotr32 x 6 ^^^ rotr32 x 11 ^^^ rotr32 x 25

def smallSigma0 (x : Nat) : Nat := rotr32 x 7 ^^^ rotr32 x 18 ^^^ (x >>> 3)

def smallSigma1 (x : Nat) : Nat := rotr32 x 17 ^^^ rotr32 x 19 ^^^ (x >>> 10)

/-- The 64 SHA-256 round constants. -/
def K256 : List Nat :=
  [1116352408, 1899447441, 3049323471, 3921009573, 961987163, 1508970993,
   2453635748, 2870763221, 3624381080, 310598401, 607225278, 1426881987,
   1925078388, 2162078206, 2614888103, 3248222580, 3835390401, 4022224774,
   264347078, 604807628, 770255983, 1249150122, 1555081692, 1996064986,
   2554220882, 2821834349, 2952996808, 3210313671, 3336571891, 3584528711,
   113926993, 338241895, 666307205, 773529912, 1294757372, 1396182291,
   1695183700, 1986661051, 2177026350, 2456956037, 2730485921, 2820302411,
   3259730800, 3345764771, 3516065817, 3600352804, 4094571909, 275423344,
   430227734, 506948616, 659060556, 883997877, 958139571, 1322822218,
   1537002063, 1747873779, 1955562222, 2024104815, 2227730452, 2361852424,
   2428436474, 2756734187, 3204031479, 3329325298]

/-- The initial SHA-256 state. -/
def H256 : List Nat :=
  [1779033703, 3144134277, 1013904242, 2773480762, 1359893119, 2600822924,
   528734635, 1541459225]

/-- Big-endian byte rendering of `n` on `k` bytes. -/
def natToBytesBE (n k : Nat) : List Nat :=
  (List.range k).map (fun i => (n >>> (8 * (k - 1 - i))) % 256)

/-- Split a list into chunks of `k` elements (fuel-driven, fuel = length). -/
def chunkAux (k : Nat) : Nat → List Nat → List (List Nat)
  | _, [] => []
  | 0, _ => []
  | fuel + 1, l => l.take k :: chunkAux k fuel (l.drop k)

def chunkList (k : Nat) (l : List Nat) : List (List Nat) :=
  chunkAux k l.length l

/-- SHA-256 message padding: append `0x80`, zeros up to 56 mod 64, and the
message bit length on 8 big-endian bytes. -/
def shaPad (msg : List Nat) : List Nat :=
  let L := msg.length
  let z := (120 - ((L + 1) % 64)) % 64
  msg ++ [128] ++ List.replicate z 0 ++ natToBytesBE (8 * L) 8

/-- Four big-endian bytes to a word. -/
def bytesToWord (b : List Nat) : Nat :=
  b.foldl (fun a x => a * 256 + x) 0

/-- One message-schedule step on the reversed schedule (latest word first). -/
def scheduleStep (rws : List Nat) : List Nat :=
  let g := fun i => rws.getD i 0
  w32 (smallSigma1 (g 1) + g 6 + smallSigma0 (g 14) + g 15) :: rws

/-- Extend 16 words to the 64-word message schedule. -/
def shaSchedule (ws : List Nat) : List Nat :=
  ((List.range 48).foldl (fun r _ => scheduleStep r) ws.reverse).reverse

/-- One SHA-256 round on the 8-word working state. -/
def compressStep (st : List Nat) (kw : Nat × Nat) : List Nat :=
  match st with
  | [a, b, c, d, e, f, g, h] =>
      let t1 := w32 (h + bigSigma1 e + shaCh e f g + kw.1 + kw.2)
      let t2 := w32 (bigSigma0 a + shaMaj a b c)
      [w32 (t1 + t2), a, b, c, w32 (d + t1), e, f, g]
  | other => other

/-- Process one 64-byte block into the hash state. -/
def processBlock (st : List Nat) (blockBytes : List Nat) : List Nat :=
  let ws := shaSchedule ((chunkList 4 blockBytes).map bytesToWord)
  let out := (K256.zip ws).foldl compressStep st
  (st.zip out).map (fun p => w32 (p.1 + p.2))

/-- SHA-256 digest of a byte list, as eight 32-bit words. -/
def sha256Words (msg : List Nat) : List Nat :=
  (chunkList 64 (shaPad msg)).foldl processBlock H256

/-- SHA-256 digest of a byte list, as a 256-bit natural number (this is what
Python computes with `int(hexdigest, 16)`). -/
def sha256Nat (msg : List Nat) : Nat :=
  (sha256Words msg).foldl (fun a w => a * 4294967296 + w) 0

/-- UTF-8 encoding of one character, as bytes. -/
def utf8EncodeCharNat (c : Char) : List Nat :=
  let n := c.toNat
  if n < 128 then [n]
  else if n < 2048 then [192 + n / 64, 128 + n % 64]
  else if n < 65536 then [224 + n / 4096, 128 + (n / 64) % 64, 128 + n % 64]
  else [240 + n / 262144, 128 + (n / 4096) % 64, 128 + (n / 64) % 64,
    128 + n % 64]

/-- UTF-8 bytes of a string (`s.encode()` in Python). -/
def strBytes (s : String) : List Nat :=
  s.data.foldr (fun c acc => utf8EncodeCharNat c ++ acc) []

def hexDigitChar (n : Nat) : Char :=
  if n < 10 then Char.ofNat (48 + n) else Char.ofNat (87 + n)

def natToHexAux : Nat → Nat → List Char
  | 0, _ => []
  | k + 1, n => natToHexAux k (n / 16) ++ [hexDigitChar (n % 16)]

/-- 64-hex-digit rendering of a 256-bit number (`hexdigest()`). -/
def natToHex64 (n : Nat) : String := String.mk (natToHexAux 64 n)

/-- `hashlib.sha256(s.encode()).hexdigest()`. -/
def sha256HexOfString (s : String) : String := natToHex64 (sha256Nat (strBytes s))

/-- `int(hashlib.sha256(s.encode()).hexdigest(), 16)`. -/
def sha256IntOfString (s : String) : Nat := sha256Nat (strBytes s)

set_option maxRecDepth 4000 in
example : sha256HexOfString "abc"
    = "ba7816bf8f01cfea414140de5dae2223b00361a396177a9cb410ff61f20015ad" := by
  rfl

/-! ## Proof-of-Stake consensus (`pos_consensus.py`)

Amounts staked through `ProofOfStake.stake` are Python floats; they are
modelled as `Nat` (see the conventions at the top).  The `validators`
attribute is a Python `set` built as the set of the top-`VALIDATOR_SET_SIZE`
sorted stakers; it is modelled as the list of those addresses, and every
faithful statement about it only ever uses membership, because iteration
order over a Python set is unspecified. -/

def MIN_STAKE_AMOUNT : Nat := 100

def STAKE_LOCK_TIME : Int := 604800

def VALIDATOR_SET_SIZE : Nat := 100

structure ProofOfStake where
  stakes : List (String × Nat)
  stake_timestamps : List (String × Int)
  validators : List String
  deriving DecidableEq, Repr

/-- `ProofOfStake.__init__`. -/
def initPoS : ProofOfStake :=
  { stakes := [], stake_timestamps := [], validators := [] }

/-- Stable insertion into a descending-by-stake list: the new entry goes
after every entry whose stake is at least its own.  Folding a dict through
this reproduces Python `sorted(items, key=value, reverse=True)`, which is a
stable sort. -/
def insertDesc (p : String × Nat) : List (String × Nat) → List (String × Nat)
  | [] => [p]
  | q :: rest => if q.2 < p.2 then p :: q :: rest else q :: insertDesc p rest

def sortStakesDesc (l : List (String × Nat)) : List (String × Nat) :=
  l.foldl (fun acc p => insertDesc p acc) []

/-- `ProofOfStake._update_validators`: the top `VALIDATOR_SET_SIZE` stakers
by stake size. -/
def update_validators (stakes : List (String × Nat)) : List String :=
  ((sortStakesDesc stakes).take VALIDATOR_SET_SIZE).map (fun p => p.1)

/-- `ProofOfStake.stake` (the clock read `time.time()` is the `now`
parameter). -/
def stakePoS (pos : ProofOfStake) (address : String) (amount : Nat)
    (now : Int) : Bool × ProofOfStake :=
  if amount < MIN_STAKE_AMOUNT then (false, pos)
  else
    let stakes := alSet pos.stakes address amount
    let stamps := alSet pos.stake_timestamps address now
    (true, { stakes := stakes, stake_timestamps := stamps,
             validators := update_validators stakes })

/-- `ProofOfStake.unstake`.  In every reachable state `stakes` and
`stake_timestamps` have the same keys, so the source's direct indexing
`self.stake_timestamps[address]` (guarded by the membership test) is
modelled with a defaulted lookup. -/
def unstakePoS (pos : ProofOfStake) (address : String) (now : Int) :
    Bool × ProofOfStake :=
  if !alHas pos.stakes address then (false, pos)
  else
    let stake_time := now - alGet pos.stake_timestamps address 0
    if stake_time < STAKE_LOCK_TIME then (false, pos)
    else
      let stakes := alDel pos.stakes address
      let stamps := alDel pos.stake_timestamps address
      (true, { stakes := stakes, stake_timestamps := stamps,
               validators := update_validators stakes })

/-- Result of `ProofOfStake.select_validator`: a chosen address, the
`ValueError` raised on an empty validator set, or a nondeterministic
outcome (`random.choice` when the total stake is zero, and the positional
fallback `list(self.validators)[-1]`, which indexes an unordered set). -/
inductive SelectOutcome where
  | ok (addr : String)
  | error
  | nondet
  deriving DecidableEq, Repr

/-- The cumulative-sum walk in `select_validator`: iterate the stake dict in
its insertion order and return the first staker whose cumulative stake
exceeds `r`. -/
def walkStakes (r : Nat) (cumsum : Nat) : List (String × Nat) → Option String
  | [] => none
  | (validator, st) :: rest =>
      if r < cumsum + st then some validator
      else walkStakes r (cumsum + st) rest

/-- `ProofOfStake.select_validator`.  The seed is hashed with SHA-256 and
read as a 256-bit integer; `r = seed_int % total_stake` is taken exactly
(the source computes it through float coercion; on the whole-number stakes
the repository uses the walk below is evaluated at some residue below the
total in either reading, and every statement proved about the walk holds
for all such residues). -/
def select_validator (pos : ProofOfStake) (seed : String) : SelectOutcome :=
  if pos.validators.isEmpty then .error
  else
    let seed_int := sha256IntOfString seed
    let total_stake := alSumNat pos.stakes
    if total_stake == 0 then .nondet
    else
      match walkStakes (seed_int % total_stake) 0 pos.stakes with
      | some v => .ok v
      | none => .nondet

/-! ## Python dict values and transaction dictionaries (`blockchain.py`) -/

/-- The primitive Python values that appear in transaction dictionaries:
strings, integers (timestamps included, per the conventions above), and
`None`. -/
inductive PyVal where
  | str (s : String)
  | int (n : Int)
  | null
  deriving DecidableEq, Repr

/-- A Python dict of primitive values, in insertion order. -/
abbrev PyDict := List (String × PyVal)

/-- `d[k]` as an optional lookup (`none` is Python `KeyError`). -/
def pyKey (d : PyDict) (k : String) : Option PyVal :=
  (d.find? (fun p => p.1 == k)).map (fun p => p.2)

/-- `d.get(k, default)`. -/
def pyGetD (d : PyDict) (k : String) (v : PyVal) : PyVal :=
  (pyKey d k).getD v

def PyVal.asStr : PyVal → Option String
  | .str s => some s
  | _ => none

def PyVal.asInt : PyVal → Option Int
  | .int n => some n
  | _ => none

/-- `TokenTransaction.to_dict`, keys in the source's literal order. -/
def TokenTransaction.to_dict (tx : TokenTransaction) : PyDict :=
  [("tx_id", .str tx.tx_id), ("tx_type", .str tx.tx_type.value),
   ("sender", .str tx.sender), ("recipient", .str tx.recipient),
   ("amount", .int tx.amount), ("fee", .int tx.fee),
   ("timestamp", .int tx.timestamp),
   ("signature", match tx.signature with
     | some s => PyVal.str s
     | none => PyVal.null)]

/-- The `signature` entry of a transaction dict: `None` or a string. -/
def pySigVal : Option PyVal → Option (Option String)
  | some .null => some Option.none
  | some (.str s) => some (some s)
  | _ => none

/-- `TokenTransaction.from_dict`; `none` models the `KeyError`/`ValueError`
raised on a missing key, a wrongly typed value, or an unknown type tag. -/
def TokenTransaction.from_dict (d : PyDict) : Option TokenTransaction :=
  ((pyKey d "tx_type").bind PyVal.asStr).bind fun tys =>
  (TokenTransactionType.ofValue tys).bind fun ty =>
  ((pyKey d "sender").bind PyVal.asStr).bind fun s =>
  ((pyKey d "recipient").bind PyVal.asStr).bind fun r =>
  ((pyKey d "amount").bind PyVal.asInt).bind fun a =>
  ((pyKey d "fee").bind PyVal.asInt).bind fun f =>
  ((pyKey d "timestamp").bind PyVal.asInt).bind fun ts =>
  (pySigVal (pyKey d "signature")).bind fun sig =>
  ((pyKey d "tx_id").bind PyVal.asStr).bind fun id =>
  some { tx_type := ty, sender := s, recipient := r, amount := a,
         fee := f, timestamp := ts, signature := sig, tx_id := id }

/-- `TokenTransaction._generate_tx_id`: SHA-256 of the colon-joined fields. -/
def generate_tx_id (tx_type : TokenTransactionType) (sender recipient : String)
    (amount fee timestamp : Int) : String :=
  sha256HexOfString (tx_type.value ++ ":" ++ sender ++ ":" ++ recipient ++ ":"
    ++ toString amount ++ ":" ++ toString fee ++ ":" ++ toString timestamp)

/-- The `TokenTransaction` constructor as called with no signature and no
explicit id: `timestamp` stands for the `time.time()` read. -/
def TokenTransaction.create (tx_type : TokenTransactionType)
    (sender recipient : String) (amount fee timestamp : Int) :
    TokenTransaction :=
  { tx_type := tx_type, sender := sender, recipient := recipient,
    amount := amount, fee := fee, timestamp := timestamp, signature := none,
    tx_id := generate_tx_id tx_type sender recipient amount fee timestamp }

/-! ## JSON rendering (`json.dumps`, as used for hashing and storage) -/

def jsonEscapeChar (c : Char) : String :=
  if c = Char.ofNat 34 then "\\\""
  else if c = Char.ofNat 92 then "\\\\"
  else String.singleton c

def jsonStr (s : String) : String :=
  "\"" ++ String.join (s.data.map jsonEscapeChar) ++ "\""

def renderPyVal : PyVal → String
  | .str s => jsonStr s
  | .int n => toString n
  | .null => "null"

/-- Stable insertion by key, ascending (string code-point order, as Python
compares str keys under `sort_keys=True`). -/
def insertByKey (p : String × PyVal) : PyDict → PyDict
  | [] => [p]
  | q :: rest => if p.1 < q.1 then p :: q :: rest else q :: insertByKey p rest

def sortDictKeys (d : PyDict) : PyDict :=
  d.foldl (fun acc p => insertByKey p acc) []

/-- `json.dumps` of one dict with the default separators; `sorted_keys`
selects `sort_keys=True`. -/
def renderDict (sorted_keys : Bool) (d : PyDict) : String :=
  let d := if sorted_keys then sortDictKeys d else d
  "\x7b" ++ String.intercalate ", "
    (d.map (fun p => jsonStr p.1 ++ ": " ++ renderPyVal p.2)) ++ "\x7d"

/-- `json.dumps` of a list of dicts. -/
def renderDictList (sorted_keys : Bool) (ds : List PyDict) : String :=
  "[" ++ String.intercalate ", " (ds.map (renderDict sorted_keys)) ++ "]"

/-! ## Blocks and the chain (`blockchain.py`) -/

/-- `Block.calculate_hash`: SHA-256 of the `sort_keys=True` JSON dump of the
five content fields.  The sorted outer key order is `index`,
`previous_hash`, `timestamp`, `transactions`, `validator`; `sort_keys`
applies recursively, so the nested transaction dicts are key-sorted too. -/
def calculate_hash (index : Int) (previous_hash : String) (timestamp : Int)
    (transactions : List PyDict) (validator : String) : String :=
  sha256HexOfString ("\x7b" ++ jsonStr "index" ++ ": " ++ toString index
    ++ ", " ++ jsonStr "previous_hash" ++ ": " ++ jsonStr previous_hash
    ++ ", " ++ jsonStr "timestamp" ++ ": " ++ toString timestamp
    ++ ", " ++ jsonStr "transactions" ++ ": " ++ renderDictList true transactions
    ++ ", " ++ jsonStr "validator" ++ ": " ++ jsonStr validator ++ "\x7d")

/-- `Block`: the constructor always computes `hash` from the other fields,
so the structure is only ever built through `Block.create`. -/
structure Block where
  index : Int
  previous_hash : String
  timestamp : Int
  transactions : List PyDict
  validator : String
  hash : String
  deriving DecidableEq, Repr

/-- `Block.__init__`. -/
def Block.create (index : Int) (previous_hash : String) (timestamp : Int)
    (transactions : List PyDict) (validator : String) : Block :=
  { index := index, previous_hash := previous_hash, timestamp := timestamp,
    transactions := transactions, validator := validator,
    hash := calculate_hash index previous_hash timestamp transactions validator }

/-- A well-formed block dictionary, as produced by `Block.to_dict`: the five
content fields plus a carried `hash` entry. -/
structure BlockDict where
  index : Int
  previous_hash : String
  timestamp : Int
  transactions : List PyDict
  validator : String
  hash : String
  deriving DecidableEq, Repr

/-- `Block.to_dict`. -/
def Block.to_dict (b : Block) : BlockDict :=
  { index := b.index, previous_hash := b.previous_hash,
    timestamp := b.timestamp, transactions := b.transactions,
    validator := b.validator, hash := b.hash }

/-- `Block.from_dict`: rebuild the block from the five content fields.  The
carried `hash` entry is only compared against the recomputed hash to emit a
log warning and is then dropped. -/
def Block.from_dict (d : BlockDict) : Block :=
  Block.create d.index d.previous_hash d.timestamp d.transactions d.validator

/-- `ProofOfStake.verify_block` over block dictionaries.  `none` is the
nondeterministic path: `select_validator` falling into `random.choice` or
into the positional fallback on the unordered validator set (the
`ValueError` arm is unreachable here because the membership test has
already ensured the set is non-empty). -/
def verify_block (pos : ProofOfStake) (block previous_block : BlockDict) :
    Option Bool :=
  if block.timestamp ≤ previous_block.timestamp then some false
  else if !(pos.validators.contains block.validator) then some false
  else
    match select_validator pos previous_block.hash with
    | .ok expected => some (block.validator == expected)
    | _ => none

structure Blockchain where
  chain : List Block
  consensus : ProofOfStake
  pending_transactions : List PyDict
  token_ledger : TokenLedger
  deriving Repr

/-- `Blockchain.__init__` together with `create_genesis_block`; `now` stands
for the clock reads. -/
def Blockchain.init (now : Int) : Blockchain :=
  let genesis_token_tx :=
    TokenTransaction.create .GENESIS "system" "genesis_wallet"
      TOKEN_INITIAL_SUPPLY 0 now
  let ledger := (apply_transaction emptyLedger genesis_token_tx).2
  let genesis_block :=
    Block.create 0 "0" now [genesis_token_tx.to_dict] "genesis"
  { chain := [genesis_block], consensus := initPoS,
    pending_transactions := [], token_ledger := ledger }

/-- `Blockchain._validate_token_transaction`. -/
def validate_token_transaction (l : TokenLedger) (tx : TokenTransaction) :
    Bool :=
  if tx.tx_type == .GENESIS || tx.tx_type == .REWARD then true
  else if tx.tx_type == .TRANSFER then
    !(get_balance l tx.sender < tx.amount + tx.fee)
  else if tx.tx_type == .STAKE then
    !(get_balance l tx.sender < tx.amount + tx.fee)
  else if tx.tx_type == .UNSTAKE then
    !(get_staked_amount l tx.sender < tx.amount
      || get_balance l tx.sender < tx.fee)
  else true

/-- `Blockchain._remove_confirmed_transactions` (as a pure function of the
pending pool). -/
def remove_confirmed_transactions (pending confirmed : List PyDict) :
    List PyDict :=
  let confirmed_ids := confirmed.filterMap (fun tx => pyKey tx "tx_id")
  pending.filter (fun tx =>
    match pyKey tx "tx_id" with
    | some v => !(confirmed_ids.contains v)
    | none => true)

/-- `Blockchain.add_block`; `now` stands for the clock reads inside the
call.  The outer `Option` models the exceptions the source can raise while
decoding malformed transaction dictionaries (`TokenTransaction.from_dict`)
and the nondeterministic arm of `verify_block`; the `Bool` is the source's
return value, paired with the post-call blockchain state. -/
def add_block (bc : Blockchain) (transactions : List PyDict)
    (validator : String) (now : Int) : Option (Bool × Blockchain) := do
  let previous_block ← bc.chain.getLast?
  let valid_transactions ← transactions.foldlM (m := Option)
    (fun acc tx =>
      if alHas tx "tx_type" then do
        let token_tx ← TokenTransaction.from_dict tx
        pure (if validate_token_transaction bc.token_ledger token_tx then
          acc ++ [tx] else acc)
      else pure (acc ++ [tx]))
    []
  let block_reward := calculate_block_reward bc.token_ledger bc.chain.length
  let valid_transactions :=
    if block_reward > 0 then
      valid_transactions
        ++ [(TokenTransaction.create .REWARD "system" validator
              block_reward 0 now).to_dict]
    else valid_transactions
  let new_block := Block.create (bc.chain.length : Int) previous_block.hash
    now valid_transactions validator
  let ok ← verify_block bc.consensus new_block.to_dict previous_block.to_dict
  if !ok then
    pure (false, bc)
  else do
    let ledger ← valid_transactions.foldlM (m := Option)
      (fun l tx =>
        if alHas tx "tx_type" then do
          let token_tx ← TokenTransaction.from_dict tx
          pure (apply_transaction l token_tx).2
        else pure l)
      bc.token_ledger
    let pending :=
      remove_confirmed_transactions bc.pending_transactions valid_transactions
    let chain := bc.chain ++ [new_block]
    pure (true,
      { bc with chain := chain, token_ledger := ledger,
                pending_transactions := pending })

/-! ## Storage (`storage.py`)

The SQLite tables are modelled as row lists.  Two reads in `save_state`
raise on every real input: `block.signature` (the `Block` class never
defines a `signature` attribute, so the very first block row raises
`AttributeError`) and `stake_info[...]` applied to the float stake values
(`TypeError`).  To also exhibit the structural round-trip failures beyond
those crashes, the model reads the missing block signature leniently as SQL
NULL, and keeps the honest failure for the stake loop: `save_state` is
`none` whenever the consensus stake dict is non-empty.  The per-transaction
rows are extracted with `tx.get` calls keyed `hash`/`from`/`to`/`type`,
none of which occur in token transaction dictionaries, so those columns
receive the defaults. -/

structure BlockRow where
  hash : String
  block_index : Int
  previous_hash : String
  timestamp : Int
  transactions_json : String
  validator : String
  signature : Option String
  deriving DecidableEq, Repr

structure TxRow where
  hash : PyVal
  block_hash : String
  sender : PyVal
  recipient : PyVal
  amount : PyVal
  timestamp : PyVal
  signature : PyVal
  tx_type_col : PyVal
  deriving DecidableEq, Repr

structure StorageDB where
  blocks : List BlockRow
  transactions : List TxRow
  stakes : List (String × PyVal)
  deriving DecidableEq, Repr

/-- `BlockchainStorage.save_state` (see the module comment above for the
two lenient reads). -/
def save_state (bc : Blockchain) : Option StorageDB :=
  if !bc.consensus.stakes.isEmpty then none
  else some
    { blocks := bc.chain.map (fun b =>
        { hash := b.hash, block_index := b.index,
          previous_hash := b.previous_hash, timestamp := b.timestamp,
          transactions_json := renderDictList false b.transactions,
          validator := b.validator, signature := none }),
      transactions := bc.chain.flatMap (fun b => b.transactions.map (fun tx =>
        { hash := pyGetD tx "hash" (.str ""), block_hash := b.hash,
          sender := pyGetD tx "from" (.str ""),
          recipient := pyGetD tx "to" (.str ""),
          amount := pyGetD tx "amount" (.int 0),
          timestamp := pyGetD tx "timestamp" (.int 0),
          signature := pyGetD tx "signature" (.str ""),
          tx_type_col := pyGetD tx "type" (.str "transfer") })),
      stakes := [] }

/-- Stable ascending sort by block index (`SELECT * FROM blocks ORDER BY
block_index`). -/
def insertByIndex (r : BlockRow) : List BlockRow → List BlockRow
  | [] => [r]
  | q :: rest =>
      if r.block_index < q.block_index then r :: q :: rest
      else q :: insertByIndex r rest

def sortBlockRows (rows : List BlockRow) : List BlockRow :=
  rows.foldl (fun acc r => insertByIndex r acc) []

/-- `BlockchainStorage.load_state`; `now` stands for the clock reads of the
fresh `Blockchain()` the source constructs before appending the loaded
blocks after its newly created genesis block.  The source also assigns
`block.signature` from the row (an attribute the `Block` class does not
declare) and copies the stake rows into `consensus.stakes` as per-address
dicts (a shape nothing else can consume); under the `save_state` model the
stake table is always empty, so that loop does not run. -/
def load_state (db : StorageDB) (now : Int) : Option Blockchain :=
  if db.blocks.length == 0 then none
  else
    let bc := Blockchain.init now
    let loaded := (sortBlockRows db.blocks).map (fun row =>
      let transactions :=
        (db.transactions.filter (fun t => t.block_hash == row.hash)).map
          (fun t =>
            [("hash", t.hash), ("from", t.sender), ("to", t.recipient),
             ("amount", t.amount), ("timestamp", t.timestamp),
             ("signature", t.signature), ("type", t.tx_type_col)])
      Block.create row.block_index row.previous_hash row.timestamp
        transactions row.validator)
    some { bc with chain := bc.chain ++ loaded }

/-! ## Claim-side definitions

These are written from the wording of the specification, to be compared
against the source embeddings above. -/

/-- Lexicographic comparison of strings by character code points (Python's
`<` on `str`), as an executable Boolean. -/
def strLtAux : List Char → List Char → Bool
  | [], [] => false
  | [], _ :: _ => true
  | _ :: _, [] => false
  | a :: as, b :: bs =>
      if a.toNat < b.toNat then true
      else if b.toNat < a.toNat then false
      else strLtAux as bs

def strLt (a b : String) : Bool := strLtAux a.data b.data

/-- Stable ascending insertion of an address (lexicographic order). -/
def insertAddr (a : String) : List String → List String
  | [] => [a]
  | b :: rest => if strLt a b then a :: b :: rest else b :: insertAddr a rest

def sortAddresses (l : List String) : List String :=
  l.foldl (fun acc a => insertAddr a acc) []

/-- Modelled from the spec wording of proposer election: convert SHA-256 of
the seed to an integer `s`, let `T` be the total stake over the validator
set, walk the validators in address-lexicographic order accumulating their
stakes and return the first whose cumulative sum exceeds `s mod T`; when
`T = 0` return the lexicographically first validator. -/
def claim_select_validator (pos : ProofOfStake) (seed : String) :
    SelectOutcome :=
  if pos.validators.isEmpty then .error
  else
    let s := sha256IntOfString seed
    let vs := sortAddresses pos.validators
    let withStakes := vs.map (fun v => (v, alGet pos.stakes v 0))
    let T := alSumNat withStakes
    if T == 0 then .ok (vs.headD "")
    else
      match walkStakes (s % T) 0 withStakes with
      | some v => .ok v
      | none => .nondet

/-- Stable descending insertion by stake with ties broken by ascending
address (the tie order the claim about the validator set asserts). -/
def insertRank (p : String × Nat) : List (String × Nat) → List (String × Nat)
  | [] => [p]
  | q :: rest =>
      if q.2 < p.2 || (q.2 == p.2 && strLt p.1 q.1) then p :: q :: rest
      else q :: insertRank p rest

/-- Modelled from the spec wording of the validator set: addresses whose
stake is at least the stake floor, the top `VALIDATOR_SET_SIZE` by stake,
ties broken by lexicographic address order. -/
def claim_validator_set (stakes : List (String × Nat)) : List String :=
  let eligible := stakes.filter (fun p => MIN_STAKE_AMOUNT ≤ p.2)
  (((eligible.foldl (fun acc p => insertRank p acc) []).take
    VALIDATOR_SET_SIZE).map (fun p => p.1))

/-- The amended validator-set description: same as the claim, except that
ties between equal stakes keep the insertion order of the stake dict (the
stable sort of the source), not lexicographic address order. -/
def amended_validator_set (stakes : List (String × Nat)) : List String :=
  let eligible := stakes.filter (fun p => MIN_STAKE_AMOUNT ≤ p.2)
  (((eligible.foldl (fun acc p => insertDesc p acc) []).take
    VALIDATOR_SET_SIZE).map (fun p => p.1))

/-- The amended proposer walk, written as in the amended claim: the first
staker, in stake-dict insertion order, whose cumulative stake exceeds `r`
(phrased by repeated subtraction instead of the source's running sum). -/
def firstExceeding (r : Nat) : List (String × Nat) → Option String
  | [] => none
  | (a, st) :: rest => if r < st then some a else firstExceeding (r - st) rest

/-- Consensus states reachable through the public staking interface. -/
inductive ReachablePoS : ProofOfStake → Prop where
  | init : ReachablePoS initPoS
  | stake (pos : ProofOfStake) (addr : String) (amount : Nat) (now : Int) :
      ReachablePoS pos → ReachablePoS (stakePoS pos addr amount now).2
  | unstake (pos : ProofOfStake) (addr : String) (now : Int) :
      ReachablePoS pos → ReachablePoS (unstakePoS pos addr now).2

/-- Keys of a dict are pairwise distinct (true of every dict built through
`alSet` from the empty dict). -/
def NodupKeys {α : Type} (m : List (String × α)) : Prop :=
  (m.map Prod.fst).Nodup

/-- Ledgers whose balance and stake dicts have no duplicated keys. -/
def GoodLedger (l : TokenLedger) : Prop :=
  NodupKeys l.balances ∧ NodupKeys l.staked_amounts

/-- Every balance and every staked amount is non-negative. -/
def LedgerNonneg (l : TokenLedger) : Prop :=
  (∀ p ∈ l.balances, 0 ≤ p.2) ∧ ∀ p ∈ l.staked_amounts, 0 ≤ p.2

/-! ## Concrete inputs used by witnesses and counterexamples -/

/-- GENESIS of 10 units to `a` (concrete input for the supply claim). -/
def gtxC2 : TokenTransaction :=
  { tx_type := .GENESIS, sender := "system", recipient := "a", amount := 10,
    fee := 0, timestamp := 0, signature := none, tx_id := "g" }

/-- TRANSFER of 1 unit from `a` to `b` with fee 1 (the fee is burned by the
ledger, which is what breaks the stated supply equation). -/
def ttxC2 : TokenTransaction :=
  { tx_type := .TRANSFER, sender := "a", recipient := "b", amount := 1,
    fee := 1, timestamp := 0, signature := none, tx_id := "t" }

/-- Three equal stakers registered in the order `c`, `a`, `b`: the stake
dict insertion order differs from address-lexicographic order at every
residue of the proposer walk. -/
def posC4 : ProofOfStake :=
  (stakePoS (stakePoS (stakePoS initPoS "c" 100 0).2 "a" 100 0).2
    "b" 100 0).2

/-- One hundred single-character addresses with code points 98 … 197
(pairwise distinct, all lexicographically before `ÿ`, code point 255). -/
def addrListC7 : List String :=
  (List.range 100).map (fun i => String.singleton (Char.ofNat (98 + i)))

/-- `ÿ` stakes first, then the hundred smaller addresses, all with the same
stake: a 101-staker state whose top-100 cut depends on the tie order. -/
def posC7 : ProofOfStake :=
  addrListC7.foldl (fun pos a => (stakePoS pos a 100 0).2)
    (stakePoS initPoS "ÿ" 100 0).2

/-! ## Theorems -/

/-- **C5.** Ledger apply is atomic: whenever `apply_transaction` reports
failure (insufficient balance for TRANSFER/STAKE, insufficient stake or fee
balance for UNSTAKE), the ledger — balances, staked amounts, total supply
and transaction history — is returned unchanged. -/
theorem C5_apply_transaction_atomic (l : TokenLedger) (tx : TokenTransaction)
    (h : (apply_transaction l tx).1 = false) :
    (apply_transaction l tx).2 = l := by
  obtain ⟨ty, s, r, a, f, ts, sig, id⟩ := tx
  cases ty <;> simp only [apply_transaction] at h ⊢ <;>
    first
    | (split at h <;> simp_all)
    | simp_all

/-- Witness for C5: a TRANSFER from an unfunded address fails and leaves the
empty ledger untouched. -/
theorem C5_witness :
    (apply_transaction emptyLedger
      (TokenTransaction.mk .TRANSFER "a" "b" 5 0 0 none "t")).1 = false
    ∧ (apply_transaction emptyLedger
      (TokenTransaction.mk .TRANSFER "a" "b" 5 0 0 none "t")).2
      = emptyLedger :=
  ⟨by decide, C5_apply_transaction_atomic _ _ (by decide)⟩

/-- **C6.** The block reward schedule: the reward at height `h` is
`(50 × 10^8) / 2^(h / 210000)`, zero from 64 halvings on, clamped to
`MAX_SUPPLY - total_supply` when it would push the supply past the cap, and
never negative. -/
theorem C6_block_reward_schedule (l : TokenLedger) (height : Nat) :
    (calculate_block_reward l height
      = if 64 ≤ height / BLOCK_REWARD_HALVING_BLOCKS then 0
        else if TOKEN_MAX_SUPPLY < l.total_supply
            + BLOCK_REWARD_START / 2 ^ (height / BLOCK_REWARD_HALVING_BLOCKS)
          then max 0 (TOKEN_MAX_SUPPLY - l.total_supply)
        else BLOCK_REWARD_START / 2 ^ (height / BLOCK_REWARD_HALVING_BLOCKS))
    ∧ 0 ≤ calculate_block_reward l height := by
  constructor
  · simp only [calculate_block_reward, ge_iff_le, gt_iff_lt]
  · simp only [calculate_block_reward]
    split
    · exact le_refl 0
    · split
      · exact le_max_left 0 _
      · exact Int.ediv_nonneg (by norm_num [BLOCK_REWARD_START]) (by positivity)

/-- **C9.** GENESIS and REWARD transactions pass the chain's transaction
validation unconditionally: no balance, supply-cap, sender or signature
check is performed for them. -/
theorem C9_system_tx_validation_unconditional (l : TokenLedger)
    (tx : TokenTransaction)
    (h : tx.tx_type = .GENESIS ∨ tx.tx_type = .REWARD) :
    validate_token_transaction l tx = true := by
  rcases h with h | h <;> simp [validate_token_transaction, h]

/-- Witness for C9: a GENESIS transaction with a negative amount, a nonzero
fee and no signature still validates against the empty ledger. -/
theorem C9_witness :
    ((TokenTransaction.mk .GENESIS "nobody" "a" (-5) 7 0 none "g").tx_type
        = TokenTransactionType.GENESIS
      ∨ (TokenTransaction.mk .GENESIS "nobody" "a" (-5) 7 0 none "g").tx_type
        = TokenTransactionType.REWARD)
    ∧ validate_token_transaction emptyLedger
        (TokenTransaction.mk .GENESIS "nobody" "a" (-5) 7 0 none "g") = true :=
  ⟨Or.inl rfl, C9_system_tx_validation_unconditional _ _ (Or.inl rfl)⟩

/-- **C10.** Deserializing a well-formed block dictionary recomputes the
hash from the five content fields; the carried `hash` value is discarded,
so the result never depends on it and always satisfies
`hash = recomputed hash`. -/
theorem C10_from_dict_recomputes_hash (d : BlockDict) (carried : String) :
    (Block.from_dict d).hash
      = calculate_hash d.index d.previous_hash d.timestamp d.transactions
          d.validator
    ∧ Block.from_dict { d with hash := carried } = Block.from_dict d := by
  exact ⟨rfl, rfl⟩

/-! ### Dict lemmas shared by the invariant proofs -/

theorem alGet_forall {α : Type} {P : α → Prop} {m : List (String × α)}
    {k : String} {d : α} (hm : ∀ p ∈ m, P p.2) (hd : P d) :
    P (alGet m k d) := by
  unfold alGet
  split
  · next p heq => exact hm p (List.mem_of_find?_eq_some heq)
  · exact hd

theorem alSet_forall {α : Type} {P : α → Prop} {m : List (String × α)}
    {k : String} {v : α} (hm : ∀ p ∈ m, P p.2) (hv : P v) :
    ∀ p ∈ alSet m k v, P p.2 := by
  intro p hp
  unfold alSet at hp
  split at hp
  · obtain ⟨q, hq, hfq⟩ := List.mem_map.mp hp
    by_cases hk : (q.1 == k) = true
    · rw [if_pos hk] at hfq
      rw [← hfq]
      exact hv
    · rw [if_neg hk] at hfq
      rw [← hfq]
      exact hm q hq
  · rcases List.mem_append.mp hp with h | h
    · exact hm p h
    · simp only [List.mem_singleton] at h
      rw [h]
      exact hv

theorem alDel_forall {α : Type} {P : α → Prop} {m : List (String × α)}
    {k : String} (hm : ∀ p ∈ m, P p.2) : ∀ p ∈ alDel m k, P p.2 := by
  intro p hp
  exact hm p (List.mem_of_mem_filter hp)

theorem updateHistory_balances (l : TokenLedger) (tx : TokenTransaction) :
    (updateHistory l tx).balances = l.balances := by
  unfold updateHistory
  split <;> split <;> rfl

theorem updateHistory_staked (l : TokenLedger) (tx : TokenTransaction) :
    (updateHistory l tx).staked_amounts = l.staked_amounts := by
  unfold updateHistory
  split <;> split <;> rfl

theorem updateHistory_supply (l : TokenLedger) (tx : TokenTransaction) :
    (updateHistory l tx).total_supply = l.total_supply := by
  unfold updateHistory
  split <;> split <;> rfl

theorem LedgerNonneg_updateHistory {l : TokenLedger} {tx : TokenTransaction}
    (h : LedgerNonneg l) : LedgerNonneg (updateHistory l tx) := by
  constructor
  · rw [updateHistory_balances]
    exact h.1
  · rw [updateHistory_staked]
    exact h.2

/-- One application step preserves non-negativity of all balances and
staked amounts, for transactions with non-negative amount and fee, whether
the application succeeds or fails. -/
theorem apply_transaction_nonneg (l : TokenLedger) (tx : TokenTransaction)
    (ha : 0 ≤ tx.amount) (hf : 0 ≤ tx.fee) (hl : LedgerNonneg l) :
    LedgerNonneg (apply_transaction l tx).2 := by
  obtain ⟨hb, hs⟩ := hl
  obtain ⟨ty, s, r, a, f, ts, sig, id⟩ := tx
  simp only at ha hf
  cases ty <;> simp only [apply_transaction]
  case GENESIS =>
    refine LedgerNonneg_updateHistory ⟨?_, hs⟩
    exact alSet_forall hb (add_nonneg (alGet_forall hb le_rfl) ha)
  case TRANSFER =>
    split
    · exact ⟨hb, hs⟩
    · next hc =>
      have hbal : (0 : Int) ≤ alGet l.balances s 0 - a - f := by
        have := not_lt.mp hc
        omega
      have h1 := alSet_forall (P := fun x => 0 ≤ x) (k := s) hb hbal
      refine LedgerNonneg_updateHistory ⟨?_, hs⟩
      exact alSet_forall h1 (add_nonneg (alGet_forall h1 le_rfl) ha)
  case STAKE =>
    split
    · exact ⟨hb, hs⟩
    · next hc =>
      have hbal : (0 : Int) ≤ alGet l.balances s 0 - a - f := by
        have := not_lt.mp hc
        omega
      refine LedgerNonneg_updateHistory ⟨?_, ?_⟩
      · exact alSet_forall hb hbal
      · exact alSet_forall hs (add_nonneg (alGet_forall hs le_rfl) ha)
  case UNSTAKE =>
    split
    · exact ⟨hb, hs⟩
    · next hc =>
      rw [Bool.or_eq_true] at hc
      push_neg at hc
      have hfe : ¬ alGet l.balances s 0 < f := by
        simpa using hc.1
      have hst : ¬ alGet l.staked_amounts s 0 < a := by
        simpa using hc.2
      refine LedgerNonneg_updateHistory ⟨?_, ?_⟩
      · exact alSet_forall hb (by omega)
      · exact alSet_forall hs (by omega)
  case REWARD =>
    refine LedgerNonneg_updateHistory ⟨?_, hs⟩
    exact alSet_forall hb (add_nonneg (alGet_forall hb le_rfl) ha)
  case FEE =>
    refine LedgerNonneg_updateHistory ⟨?_, hs⟩
    exact alSet_forall hb (add_nonneg (alGet_forall hb le_rfl) ha)

/-- **C8.** Starting from the empty ledger, after any sequence of apply
operations — each succeeding or failing — every balance and every staked
amount is non-negative, provided every transaction in the sequence carries
a non-negative amount and fee. -/
theorem C8_balances_nonneg (txs : List TokenTransaction)
    (h : ∀ tx ∈ txs, 0 ≤ tx.amount ∧ 0 ≤ tx.fee) :
    LedgerNonneg (runLedger txs) := by
  have main : ∀ (ts : List TokenTransaction) (l : TokenLedger),
      LedgerNonneg l → (∀ tx ∈ ts, 0 ≤ tx.amount ∧ 0 ≤ tx.fee) →
      LedgerNonneg (ts.foldl (fun l tx => (apply_transaction l tx).2) l) := by
    intro ts
    induction ts with
    | nil => exact fun l hl _ => hl
    | cons tx rest ih =>
        intro l hl hall
        simp only [List.foldl_cons]
        refine ih _ ?_ (fun t ht => hall t (List.mem_cons_of_mem _ ht))
        exact apply_transaction_nonneg _ _ (hall tx (List.mem_cons_self _ _)).1
          (hall tx (List.mem_cons_self _ _)).2 hl
  exact main txs emptyLedger (by simp [LedgerNonneg, emptyLedger]) h

/-- Witness for C8: a genesis grant, a stake, a failing over-spend and an
unstake attempt, all with non-negative amounts and fees, leave every
balance and stake non-negative. -/
theorem C8_witness :
    (∀ tx ∈ [TokenTransaction.mk .GENESIS "system" "a" 200 0 0 none "g",
        TokenTransaction.mk .STAKE "a" "staking_pool" 150 1 0 none "s",
        TokenTransaction.mk .TRANSFER "a" "b" 1000 0 0 none "t",
        TokenTransaction.mk .UNSTAKE "a" "a" 150 2 0 none "u"],
      0 ≤ tx.amount ∧ 0 ≤ tx.fee)
    ∧ LedgerNonneg (runLedger
        [TokenTransaction.mk .GENESIS "system" "a" 200 0 0 none "g",
         TokenTransaction.mk .STAKE "a" "staking_pool" 150 1 0 none "s",
         TokenTransaction.mk .TRANSFER "a" "b" 1000 0 0 none "t",
         TokenTransaction.mk .UNSTAKE "a" "a" 150 2 0 none "u"]) :=
  ⟨by decide, C8_balances_nonneg _ (by decide)⟩

/-! ### Sum lemmas for the supply accounting -/

theorem sum_map_replace (k : String) (v : Int) :
    ∀ (m : List (String × Int)), NodupKeys m →
      m.any (fun p => p.1 == k) = true →
      alSumInt (m.map (fun p => if p.1 == k then (k, v) else p))
        = alSumInt m + v - alGet m k 0 := by
  intro m
  induction m with
  | nil => intro _ h; simp at h
  | cons e rest ih =>
      intro hnd hany
      have hndrest : NodupKeys rest := by
        have := hnd
        simp only [NodupKeys, List.map_cons, List.nodup_cons] at this
        exact this.2
      by_cases hk : (e.1 == k) = true
      · have hkeq : e.1 = k := eq_of_beq hk
        have hnot : ∀ q ∈ rest, ¬ (q.1 == k) = true := by
          intro q hq hqk
          have hqeq : q.1 = k := eq_of_beq hqk
          have hmem : e.1 ∈ rest.map Prod.fst := by
            rw [hkeq, ← hqeq]
            exact List.mem_map_of_mem Prod.fst hq
          have hnmem : e.1 ∉ rest.map Prod.fst := by
            have := hnd
            simp only [NodupKeys, List.map_cons, List.nodup_cons] at this
            exact this.1
          exact hnmem hmem
        have hrest_id :
            rest.map (fun q => if q.1 == k then (k, v) else q) = rest := by
          have := List.map_congr_left (l := rest)
            (f := fun q => if q.1 == k then (k, v) else q) (g := id)
            (fun q hq => by simp [Bool.eq_false_iff.mpr (hnot q hq)])
          simpa using this
        have hget : alGet (e :: rest) k 0 = e.2 := by
          unfold alGet
          rw [List.find?_cons_of_pos (p := fun q => q.1 == k) rest hk]
        have hmap : (e :: rest).map (fun q => if q.1 == k then (k, v) else q)
            = (k, v) :: rest := by
          rw [List.map_cons, hrest_id, if_pos hk]
        rw [hmap, hget]
        simp only [alSumInt, List.map_cons, List.sum_cons]
        omega
      · have hany2 : rest.any (fun p => p.1 == k) = true := by
          simp only [List.any_cons, Bool.or_eq_true] at hany
          rcases hany with h | h
          · exact absurd h hk
          · exact h
        have hkf : (e.1 == k) = false := by
          cases h : (e.1 == k)
          · rfl
          · exact absurd h hk
        have hget : alGet (e :: rest) k 0 = alGet rest k 0 := by
          unfold alGet
          rw [List.find?_cons_of_neg (p := fun q => q.1 == k) rest hk]
        have hmap : (e :: rest).map (fun q => if q.1 == k then (k, v) else q)
            = e :: rest.map (fun q => if q.1 == k then (k, v) else q) := by
          rw [List.map_cons, if_neg hk]
        rw [hmap, hget]
        have hrec := ih hndrest hany2
        simp only [alSumInt, List.map_cons, List.sum_cons] at hrec ⊢
        omega

theorem alGet_eq_zero_of_not_any (m : List (String × Int)) (k : String)
    (hany : ¬ m.any (fun p => p.1 == k) = true) : alGet m k 0 = 0 := by
  unfold alGet
  have : m.find? (fun p => p.1 == k) = none := by
    rw [List.find?_eq_none]
    intro x hx hxk
    exact hany (List.any_eq_true.mpr ⟨x, hx, hxk⟩)
  rw [this]

/-- Setting a key changes the value sum by the new value minus the old
defaulted value (for dicts with distinct keys, which every dict built from
`alSet` is). -/
theorem alSumInt_alSet (m : List (String × Int)) (k : String) (v : Int)
    (hnd : NodupKeys m) :
    alSumInt (alSet m k v) = alSumInt m + v - alGet m k 0 := by
  unfold alSet
  split
  · next hany => exact sum_map_replace k v m hnd hany
  · next hany =>
      rw [alGet_eq_zero_of_not_any m k hany]
      simp [alSumInt]

theorem NodupKeys_alSet (m : List (String × α)) (k : String) (v : α)
    (hnd : NodupKeys m) : NodupKeys (alSet m k v) := by
  unfold alSet
  split
  · next hany =>
      have hkeys :
          (m.map (fun p => if p.1 == k then (k, v) else p)).map Prod.fst
            = m.map Prod.fst := by
        rw [List.map_map]
        apply List.map_congr_left
        intro q _
        by_cases hk : (q.1 == k) = true
        · simp [Function.comp, hk, (eq_of_beq hk).symm]
        · simp [Function.comp, hk]
      unfold NodupKeys at hnd ⊢
      rw [hkeys]
      exact hnd
  · next hany =>
      unfold NodupKeys at hnd ⊢
      rw [List.map_append]
      rw [List.nodup_append]
      refine ⟨hnd, List.nodup_singleton k, ?_⟩
      intro x hx
      obtain ⟨q, hq, rfl⟩ := List.mem_map.mp hx
      simp only [List.map_cons, List.map_nil, List.mem_singleton]
      intro hcon
      exact hany (List.any_eq_true.mpr ⟨q, hq, by simp [hcon]⟩)

theorem GoodLedger_updateHistory {l : TokenLedger} {tx : TokenTransaction}
    (h : GoodLedger l) : GoodLedger (updateHistory l tx) := by
  constructor
  · show NodupKeys (updateHistory l tx).balances
    rw [updateHistory_balances]
    exact h.1
  · show NodupKeys (updateHistory l tx).staked_amounts
    rw [updateHistory_staked]
    exact h.2

theorem GoodLedger_apply (l : TokenLedger) (tx : TokenTransaction)
    (h : GoodLedger l) : GoodLedger (apply_transaction l tx).2 := by
  obtain ⟨hb, hs⟩ := h
  obtain ⟨ty, s, r, a, f, ts, sig, id⟩ := tx
  cases ty <;> simp only [apply_transaction]
  case GENESIS => exact GoodLedger_updateHistory ⟨NodupKeys_alSet _ _ _ hb, hs⟩
  case TRANSFER =>
    split
    · exact ⟨hb, hs⟩
    · exact GoodLedger_updateHistory
        ⟨NodupKeys_alSet _ _ _ (NodupKeys_alSet _ _ _ hb), hs⟩
  case STAKE =>
    split
    · exact ⟨hb, hs⟩
    · exact GoodLedger_updateHistory
        ⟨NodupKeys_alSet _ _ _ hb, NodupKeys_alSet _ _ _ hs⟩
  case UNSTAKE =>
    split
    · exact ⟨hb, hs⟩
    · exact GoodLedger_updateHistory
        ⟨NodupKeys_alSet _ _ _ hb, NodupKeys_alSet _ _ _ hs⟩
  case REWARD => exact GoodLedger_updateHistory ⟨NodupKeys_alSet _ _ _ hb, hs⟩
  case FEE => exact GoodLedger_updateHistory ⟨NodupKeys_alSet _ _ _ hb, hs⟩

/-- The supply accounting equation is preserved by one accounting step:
`total_supply + distributed FEE amounts
  = Σ balances + Σ stakes + burned fees`. -/
theorem accountingStep_invariant (l : TokenLedger) (fc fd : Int)
    (tx : TokenTransaction) (hg : GoodLedger l)
    (hinv : l.total_supply + fd
      = alSumInt l.balances + alSumInt l.staked_amounts + fc) :
    (accountingStep (l, fc, fd) tx).1.total_supply
        + (accountingStep (l, fc, fd) tx).2.2
      = alSumInt (accountingStep (l, fc, fd) tx).1.balances
        + alSumInt (accountingStep (l, fc, fd) tx).1.staked_amounts
        + (accountingStep (l, fc, fd) tx).2.1 := by
  obtain ⟨hb, hs⟩ := hg
  obtain ⟨ty, s, r, a, f, ts, sig, id⟩ := tx
  cases ty
  case GENESIS =>
    simp only [accountingStep, apply_transaction, updateHistory_balances,
      updateHistory_staked, updateHistory_supply]
    rw [alSumInt_alSet _ _ _ hb]
    simp
    omega
  case TRANSFER =>
    by_cases hc : alGet l.balances s 0 < a + f
    · simp only [accountingStep, apply_transaction]
      rw [if_pos hc]
      simp
      omega
    · simp only [accountingStep, apply_transaction]
      rw [if_neg hc]
      simp only [updateHistory_balances, updateHistory_staked,
        updateHistory_supply]
      rw [alSumInt_alSet _ _ _ (NodupKeys_alSet _ _ _ hb),
        alSumInt_alSet _ _ _ hb]
      simp
      omega
  case STAKE =>
    by_cases hc : alGet l.balances s 0 < a + f
    · simp only [accountingStep, apply_transaction]
      rw [if_pos hc]
      simp
      omega
    · simp only [accountingStep, apply_transaction]
      rw [if_neg hc]
      simp only [updateHistory_balances, updateHistory_staked,
        updateHistory_supply]
      rw [alSumInt_alSet _ _ _ hb, alSumInt_alSet _ _ _ hs]
      simp
      omega
  case UNSTAKE =>
    by_cases hc : (decide (alGet l.balances s 0 < f)
        || decide (alGet l.staked_amounts s 0 < a)) = true
    · simp only [accountingStep, apply_transaction]
      rw [if_pos hc]
      simp
      omega
    · simp only [accountingStep, apply_transaction]
      rw [if_neg hc]
      simp only [updateHistory_balances, updateHistory_staked,
        updateHistory_supply]
      rw [alSumInt_alSet _ _ _ hb, alSumInt_alSet _ _ _ hs]
      simp
      omega
  case REWARD =>
    simp only [accountingStep, apply_transaction, updateHistory_balances,
      updateHistory_staked, updateHistory_supply]
    rw [alSumInt_alSet _ _ _ hb]
    simp
    omega
  case FEE =>
    simp only [accountingStep, apply_transaction, updateHistory_balances,
      updateHistory_staked, updateHistory_supply]
    rw [alSumInt_alSet _ _ _ hb]
    simp
    omega

/-- **C2 (amended).** For every transaction sequence applied from the empty
ledger, `total_supply` plus the amounts credited by FEE transactions equals
the sum of all balances plus the sum of all staked amounts plus the fees
charged by successful TRANSFER/STAKE/UNSTAKE transactions (those fees are
burned by the ledger layer; FEE credits mint the balance back without
touching the supply). -/
theorem C2_supply_accounting (txs : List TokenTransaction) :
    (runAccounting txs).1.total_supply + (runAccounting txs).2.2
      = alSumInt (runAccounting txs).1.balances
        + alSumInt (runAccounting txs).1.staked_amounts
        + (runAccounting txs).2.1 := by
  have main : ∀ (ts : List TokenTransaction) (s : TokenLedger × Int × Int),
      GoodLedger s.1 →
      s.1.total_supply + s.2.2
        = alSumInt s.1.balances + alSumInt s.1.staked_amounts + s.2.1 →
      GoodLedger (ts.foldl accountingStep s).1
      ∧ (ts.foldl accountingStep s).1.total_supply
          + (ts.foldl accountingStep s).2.2
        = alSumInt (ts.foldl accountingStep s).1.balances
          + alSumInt (ts.foldl accountingStep s).1.staked_amounts
          + (ts.foldl accountingStep s).2.1 := by
    intro ts
    induction ts with
    | nil => exact fun s hg hinv => ⟨hg, hinv⟩
    | cons tx rest ih =>
        intro s hg hinv
        obtain ⟨l, fc, fd⟩ := s
        simp only [List.foldl_cons]
        refine ih (accountingStep (l, fc, fd) tx) ?_ ?_
        · exact GoodLedger_apply l tx hg
        · exact accountingStep_invariant l fc fd tx hg hinv
  have hempty : GoodLedger emptyLedger := by
    constructor <;> simp [NodupKeys, emptyLedger]
  exact (main txs (emptyLedger, 0, 0) hempty (by simp [emptyLedger, alSumInt])).2

/-- Counterexample to C2 as stated: a GENESIS of 10 units followed by a
successful TRANSFER of 1 unit with fee 1 leaves `total_supply = 10` but
`Σ balances + Σ stakes = 9`: the fee is burned without any supply change,
so `total_supply = Σ balances + Σ stakes` fails on fee-bearing runs. -/
theorem C2_counterexample :
    allApplySucceed [gtxC2, ttxC2] = true
    ∧ ¬ (runLedger [gtxC2, ttxC2]).total_supply
        = alSumInt (runLedger [gtxC2, ttxC2]).balances
          + alSumInt (runLedger [gtxC2, ttxC2]).staked_amounts := by
  decide

/-- On stake dicts whose entries all meet the stake floor (every reachable
one), the source validator computation agrees with the amended description
(floor filter plus stable descending sort plus top-100 cut). -/
theorem update_validators_eq_amended (st : List (String × Nat))
    (h : ∀ p ∈ st, MIN_STAKE_AMOUNT ≤ p.2) :
    update_validators st = amended_validator_set st := by
  unfold update_validators amended_validator_set sortStakesDesc
  have hf : st.filter (fun p => MIN_STAKE_AMOUNT ≤ p.2) = st := by
    apply List.filter_eq_self.mpr
    intro p hp
    exact decide_eq_true (h p hp)
  rw [hf]

/-- **C7 (amended).** After every stake/unstake operation the validator set
is exactly the top `VALIDATOR_SET_SIZE` stake holders, every one of them
with stake at least `MIN_STAKE_AMOUNT`, where ties between equal stakes
keep the insertion order of the stake dict (Python's stable sort), not
lexicographic address order. -/
theorem C7_validator_set (pos : ProofOfStake) (h : ReachablePoS pos) :
    pos.validators = amended_validator_set pos.stakes
    ∧ ∀ p ∈ pos.stakes, MIN_STAKE_AMOUNT ≤ p.2 := by
  induction h with
  | init =>
      constructor
      · rfl
      · intro p hp
        simp [initPoS] at hp
  | stake pos addr amount now hr ih =>
      by_cases hlt : amount < MIN_STAKE_AMOUNT
      · simp only [stakePoS, if_pos hlt]
        exact ih
      · simp only [stakePoS, if_neg hlt]
        have hall : ∀ p ∈ alSet pos.stakes addr amount, MIN_STAKE_AMOUNT ≤ p.2 :=
          alSet_forall ih.2 (le_of_not_lt hlt)
        exact ⟨update_validators_eq_amended _ hall, hall⟩
  | unstake pos addr now hr ih =>
      simp only [unstakePoS]
      split
      · exact ih
      · split
        · exact ih
        · have hall : ∀ p ∈ alDel pos.stakes addr, MIN_STAKE_AMOUNT ≤ p.2 :=
            alDel_forall ih.2
          exact ⟨update_validators_eq_amended _ hall, hall⟩

/-- Witness for the amended C7: a single staker at 150 (reachable state). -/
theorem C7_witness :
    ReachablePoS (stakePoS initPoS "w" 150 5).2
    ∧ ((stakePoS initPoS "w" 150 5).2.validators
        = amended_validator_set (stakePoS initPoS "w" 150 5).2.stakes
      ∧ ∀ p ∈ (stakePoS initPoS "w" 150 5).2.stakes,
          MIN_STAKE_AMOUNT ≤ p.2) :=
  ⟨ReachablePoS.stake _ _ _ _ ReachablePoS.init,
   C7_validator_set _ (ReachablePoS.stake _ _ _ _ ReachablePoS.init)⟩

set_option maxRecDepth 100000 in
/-- Counterexample to C7 as stated: 101 stakers with equal stakes, address
`ÿ` registered first.  The source's stable sort keeps `ÿ` (first inserted)
at the head of the tie, so `ÿ` makes the top-100 cut; under the claimed
lexicographic tie-break the hundred smaller addresses all precede `ÿ`, so
`ÿ` is excluded.  The two sets differ. -/
theorem C7_counterexample :
    posC7.validators.contains "ÿ" = true
    ∧ (claim_validator_set posC7.stakes).contains "ÿ" = false := by
  decide

/-- The source's cumulative-sum walk equals the subtract-as-you-go walk of
the amended claim. -/
theorem walkStakes_eq_firstExceeding :
    ∀ (l : List (String × Nat)) (r c : Nat), c ≤ r →
      walkStakes r c l = firstExceeding (r - c) l := by
  intro l
  induction l with
  | nil => intro r c _; rfl
  | cons p rest ih =>
      intro r c hc
      obtain ⟨addr, st⟩ := p
      simp only [walkStakes, firstExceeding]
      by_cases h : r < c + st
      · rw [if_pos h, if_pos (by omega)]
      · rw [if_neg h, if_neg (by omega), ih r (c + st) (by omega)]
        congr 1
        omega

/-- The walk always lands on a staker when the residue is below the
remaining total: the positional fallback after the loop is dead code. -/
theorem walkStakes_isSome :
    ∀ (l : List (String × Nat)) (r c : Nat), c ≤ r → r < c + alSumNat l →
      ∃ a, walkStakes r c l = some a := by
  intro l
  induction l with
  | nil =>
      intro r c hc hlt
      simp only [alSumNat, List.map_nil, List.sum_nil] at hlt
      omega
  | cons p rest ih =>
      intro r c hc hlt
      obtain ⟨addr, st⟩ := p
      simp only [alSumNat, List.map_cons, List.sum_cons] at hlt
      simp only [walkStakes]
      by_cases h : r < c + st
      · exact ⟨addr, by rw [if_pos h]⟩
      · obtain ⟨a, ha⟩ := ih r (c + st) (by omega)
          (by simp only [alSumNat]; omega)
        exact ⟨a, by rw [if_neg h, ha]⟩

/-- **C4 (amended).** With a non-empty validator set and positive stakes
(every reachable state), proposer selection is deterministic, but it walks
the stake dict in its insertion order, not in address-lexicographic order,
and the total it reduces the hashed seed by is the total over all stakes:
the selected proposer is the first staker in dict order whose cumulative
stake exceeds `SHA-256(seed) mod total`.  (The `total = 0` branch of the
source, unreachable under positive stakes, calls `random.choice`.) -/
theorem C4_proposer_selection (pos : ProofOfStake) (seed : String)
    (hv : pos.validators.isEmpty = false)
    (hp : ∀ p ∈ pos.stakes, 0 < p.2) (hs : pos.stakes ≠ []) :
    ∃ a, firstExceeding (sha256IntOfString seed % alSumNat pos.stakes)
          pos.stakes = some a
      ∧ select_validator pos seed = SelectOutcome.ok a := by
  have htot : 0 < alSumNat pos.stakes := by
    cases hst : pos.stakes with
    | nil => exact absurd hst hs
    | cons p rest =>
        have hppos := hp p (by rw [hst]; exact List.mem_cons_self _ _)
        simp only [alSumNat, List.map_cons, List.sum_cons]
        omega
  have hrlt : sha256IntOfString seed % alSumNat pos.stakes
      < alSumNat pos.stakes := Nat.mod_lt _ htot
  obtain ⟨a, ha⟩ := walkStakes_isSome pos.stakes
    (sha256IntOfString seed % alSumNat pos.stakes) 0 (Nat.zero_le _)
    (by omega)
  refine ⟨a, ?_, ?_⟩
  · have heq := walkStakes_eq_firstExceeding pos.stakes
      (sha256IntOfString seed % alSumNat pos.stakes) 0 (Nat.zero_le _)
    rw [Nat.sub_zero] at heq
    rw [← heq]
    exact ha
  · unfold select_validator
    rw [if_neg (by simp [hv])]
    rw [if_neg (by simp [Nat.pos_iff_ne_zero.mp htot])]
    rw [ha]

/-- Witness for the amended C4: the three-staker state, some seed. -/
theorem C4_witness :
    (posC4.validators.isEmpty = false
      ∧ (∀ p ∈ posC4.stakes, 0 < p.2) ∧ posC4.stakes ≠ [])
    ∧ ∃ a, firstExceeding (sha256IntOfString "s" % alSumNat posC4.stakes)
          posC4.stakes = some a
        ∧ select_validator posC4 "s" = SelectOutcome.ok a :=
  ⟨⟨by decide, by decide, by decide⟩,
   C4_proposer_selection posC4 "s" (by decide) (by decide) (by decide)⟩

set_option maxRecDepth 8000 in
/-- Counterexample to C4 as stated: with stakes registered in the order
`c`, `a`, `b` (all 100), the source walks dict insertion order while the
claim walks lexicographic order; the partition of residues is
`c/a/b` versus `a/b/c`, which disagree at every residue below the total,
so the two selections differ whatever SHA-256 yields for the seed. -/
theorem C4_counterexample :
    select_validator posC4 "seed" ≠ claim_select_validator posC4 "seed" := by
  have hlt : sha256IntOfString "seed" % 300 < 300 :=
    Nat.mod_lt _ (by norm_num)
  have h1 : select_validator posC4 "seed"
      = match walkStakes (sha256IntOfString "seed" % 300) 0
          [("c", 100), ("a", 100), ("b", 100)] with
        | some v => SelectOutcome.ok v
        | none => SelectOutcome.nondet := rfl
  have h2 : claim_select_validator posC4 "seed"
      = match walkStakes (sha256IntOfString "seed" % 300) 0
          [("a", 100), ("b", 100), ("c", 100)] with
        | some v => SelectOutcome.ok v
        | none => SelectOutcome.nondet := rfl
  rw [h1, h2]
  revert hlt
  generalize sha256IntOfString "seed" % 300 = r
  revert r
  decide

/-- **C1.** Append is atomic: whenever `add_block` returns failure — in
particular when `verify_block` rejects the candidate because its validator
is not the proposer selected from the previous block's hash — the chain and
the token ledger are exactly as they were before the call. -/
theorem C1_add_block_atomic (bc : Blockchain) (txs : List PyDict)
    (validator : String) (now : Int) (bc2 : Blockchain)
    (h : add_block bc txs validator now = some (false, bc2)) :
    bc2.chain = bc.chain ∧ bc2.token_ledger = bc.token_ledger := by
  unfold add_block at h
  simp only [bind, Option.pure_def, Option.bind_eq_some] at h
  obtain ⟨prev, hprev, h⟩ := h
  obtain ⟨vtxs, hvtxs, h⟩ := h
  obtain ⟨ok, hok, h⟩ := h
  cases hb : ok with
  | false =>
      rw [hb] at h
      simp only [Bool.not_false, if_pos, Option.some.injEq,
        Prod.mk.injEq] at h
      rw [← h.2]
      exact ⟨rfl, rfl⟩
  | true =>
      rw [hb] at h
      simp only [Bool.not_true, Bool.false_eq_true, if_false,
        Option.bind_eq_some] at h
      obtain ⟨led, hled, h⟩ := h
      simp only [Option.some.injEq, Prod.mk.injEq] at h
      exact absurd h.1 (by simp)

/-- Witness for C1: on the freshly initialised chain, a candidate with a
stale timestamp (and a validator that is in no validator set) is rejected
by `verify_block`, `add_block` returns failure, and the state it returns is
the pre-call state. -/
theorem C1_witness :
    add_block (Blockchain.init 10) [] "v" 0
      = some (false, Blockchain.init 10)
    ∧ (Blockchain.init 10).chain = (Blockchain.init 10).chain
      ∧ (Blockchain.init 10).token_ledger
        = (Blockchain.init 10).token_ledger :=
  ⟨by rfl, C1_add_block_atomic (Blockchain.init 10) [] "v" 0
    (Blockchain.init 10) (by rfl)⟩

/-- **C3.** The storage round trip does not restore the chain: saving the
freshly initialised one-block chain and loading it back yields a chain of
two blocks — `load_state` constructs a brand-new `Blockchain()` (with a new
genesis block and a re-derived genesis ledger) and appends every loaded
block after that fresh genesis — so the loaded chain carries the block
index 0 twice, and `load(save(C)) ≠ C` already at the length level.  (On
top of this the source crashes outright: `save_state` reads
`block.signature`, an attribute `Block` never defines, and treats the float
stake values as dicts; and the reloaded transaction dicts are rebuilt with
the keys `hash`/`from`/`to`/`type`, which token transactions never had.) -/
theorem C3_storage_roundtrip_broken (t now : Int) :
    ((save_state (Blockchain.init t)).bind (fun db => load_state db now)).map
        (fun bc => bc.chain.map (fun b => b.index)) = some [0, 0]
    ∧ (Blockchain.init t).chain.map (fun b => b.index) = [0] := by
  exact ⟨rfl, rfl⟩
